import Mathlib

/-
Verification of the numfmt number-formatting library (jackc/numfmt).

Embedding conventions:
- Go strings are byte strings; every string handled here is ASCII, and we model
  them as lists of characters (List Char).
- Go functions that can panic (out-of-range slice indexing) are modelled as
  functions returning Option; none models a panic.
- Go int, int32 and int64 values are modelled as unbounded Int, with explicit
  range checks where the source performs them.
- The decimal type is an external collaborator (shopspring/decimal): an
  arbitrary-precision value, represented as an integer coefficient together
  with a power-of-ten exponent.  Its operations used by numfmt (parse, shift,
  round, canonical string) are modelled here following that library.
-/

namespace Numfmt

/-! ## Decimal model (external collaborator shopspring/decimal) -/

/-- Power of ten as an integer, written with plain recursion so that the
kernel can evaluate it. -/
def pow10 : Nat → Int
  | 0 => 1
  | n + 1 => 10 * pow10 n

/-- The character for a single decimal digit (the digits produced by the
big-integer decimal printer). -/
def digitChar : Nat → Char
  | 0 => '0'
  | 1 => '1'
  | 2 => '2'
  | 3 => '3'
  | 4 => '4'
  | 5 => '5'
  | 6 => '6'
  | 7 => '7'
  | 8 => '8'
  | 9 => '9'
  | _ => '?'

/-- Fuelled helper for the decimal digit string of a natural number. -/
def natDigitsAux : Nat → Nat → List Char
  | 0, _ => []
  | fuel + 1, n =>
    if n < 10 then [digitChar n]
    else natDigitsAux fuel (n / 10) ++ [digitChar (n % 10)]

/-- Decimal digit string of a natural number, most significant digit first
(the big-integer String method restricted to nonnegative input). -/
def natDigits (n : Nat) : List Char := natDigitsAux (n + 1) n

/-- Decimal string of an integer: an optional leading minus followed by the
digits of the absolute value (the big-integer String method). -/
def intDigits (v : Int) : List Char :=
  if v < 0 then '-' :: natDigits v.natAbs else natDigits v.natAbs

/-- Model of the external decimal type: value * 10 ^ exp. -/
structure Dec where
  value : Int
  exp : Int
  deriving DecidableEq

/-- Decimal-point shift (the decimal library's Shift): adds to the exponent,
leaving the coefficient unchanged. -/
def Dec.shift (d : Dec) (s : Int) : Dec := ⟨d.value, d.exp + s⟩

/-- Rescale to a target exponent (the decimal library's rescale): multiplies
the coefficient when lowering the exponent, and truncates (division toward
zero, as for big-integer Quo) when raising it. -/
def Dec.rescale (d : Dec) (e : Int) : Dec :=
  if d.exp = e then d
  else if d.exp < e then ⟨Int.tdiv d.value (pow10 (e - d.exp).toNat), e⟩
  else ⟨d.value * pow10 (d.exp - e).toNat, e⟩

/-- Rounding to a number of decimal places, half away from zero (the decimal
library's Round): if the exponent already is at least -places the value is
returned unchanged; otherwise the value is rescaled to one digit past the
target, 5 is added away from zero, and the result is divided by ten with the
Euclidean quotient and remainder, adding one back for inexact negative
quotients. -/
def Dec.round (d : Dec) (places : Int) : Dec :=
  if -places ≤ d.exp then d
  else
    let r := d.rescale (-places - 1)
    let v := if r.value < 0 then r.value - 5 else r.value + 5
    let q := Int.ediv v 10
    let m := Int.emod v 10
    ⟨if q < 0 ∧ m ≠ 0 then q + 1 else q, -places⟩

/-- Drop trailing zero characters of a fraction string (the trailing-zero
trimming loop of the decimal library's String method). -/
def trimTrailingZeros (l : List Char) : List Char :=
  (l.reverse.dropWhile (fun c => c = '0')).reverse

/-- Canonical string of a decimal (the decimal library's String method, which
trims trailing zeros): for a nonnegative exponent the integer is printed
directly; otherwise the digit string of the coefficient's absolute value is
split into integer and fraction parts, padding with zeros when the exponent
exceeds the number of digits, and a minus sign is prefixed for a negative
coefficient. -/
def Dec.toStr (d : Dec) : List Char :=
  if 0 ≤ d.exp then intDigits (d.value * pow10 d.exp.toNat)
  else
    let str := natDigits d.value.natAbs
    let e := (-d.exp).toNat
    let ip := if e < str.length then str.take (str.length - e) else ['0']
    let fp := if e < str.length then str.drop (str.length - e)
              else List.replicate (e - str.length) '0' ++ str
    let fp := trimTrailingZeros fp
    let number := ip ++ (if fp.isEmpty then [] else '.' :: fp)
    if d.value < 0 then '-' :: number else number

/-- True for an ASCII decimal digit character. -/
def isDigitChar (c : Char) : Bool := 48 ≤ c.toNat ∧ c.toNat ≤ 57

/-- Accumulating parser for a nonempty all-digit string. -/
def parseDigitsAux : List Char → Nat → Option Nat
  | [], acc => some acc
  | c :: rest, acc =>
    if isDigitChar c then parseDigitsAux rest (acc * 10 + (c.toNat - 48)) else none

/-- Parse a nonempty string of decimal digits. -/
def parseDigits (l : List Char) : Option Nat :=
  if l.isEmpty then none else parseDigitsAux l 0

/-- Parse an optionally signed nonempty digit string into an integer (the
syntax accepted both by ParseInt in base 10 and by the big-integer SetString
used by the decimal parser; since any string of at most 18 digits fits in 64
bits, the source's int64 fast path never fails on range, so the two coincide
on the inputs the decimal parser gives them). -/
def parseSignedDigits : List Char → Option Int
  | '+' :: rest => (parseDigits rest).map fun n => (n : Int)
  | '-' :: rest => (parseDigits rest).map fun n => -(n : Int)
  | l => (parseDigits l).map fun n => (n : Int)

/-- Model of strconv.ParseInt in base 10 with the given bit size: signed
digit syntax plus a two's-complement range check. -/
def goParseInt (s : List Char) (bits : Nat) : Option Int :=
  match parseSignedDigits s with
  | none => none
  | some n => if -(2 ^ (bits - 1)) ≤ n ∧ n ≤ 2 ^ (bits - 1) - 1 then some n else none

/-- The mantissa-and-exponent part of the decimal parser, after scientific
notation has been stripped: reject more than one decimal point, drop the
point while lowering the exponent by the number of fraction digits, parse the
remaining signed digit string, and require the final exponent to fit in 32
bits. -/
def newFromStringNoExp (value : List Char) (exp0 : Int) : Option Dec :=
  if 2 ≤ value.count '.' then none
  else
    let pIdx := value.findIdx? (fun c => c = '.')
    let intString := match pIdx with
      | none => value
      | some p => value.take p ++ value.drop (p + 1)
    let exp := match pIdx with
      | none => exp0
      | some p => exp0 - ((value.length - p - 1 : Nat) : Int)
    match parseSignedDigits intString with
    | none => none
    | some v => if -(2 ^ 31) ≤ exp ∧ exp ≤ 2 ^ 31 - 1 then some ⟨v, exp⟩ else none

/-- Model of the decimal library's NewFromString: an optional scientific
notation suffix introduced by the first letter e or E (whose exponent is
parsed as a 32-bit integer), and a signed digit string with at most one
decimal point. -/
def NewFromString (value : List Char) : Option Dec :=
  match value.findIdx? (fun c => c = 'e' ∨ c = 'E') with
  | some i =>
    match goParseInt (value.drop (i + 1)) 32 with
    | none => none
    | some expInt => newFromStringNoExp (value.take i) expInt
  | none => newFromStringNoExp value 0

/-! ## The formatter (src/numfmt.go) -/

/-- Rounder configuration: the number of decimal places to round to. -/
structure Rounder where
  Places : Int
  deriving DecidableEq

/-- Formatter configuration; every field's default is the Go zero value. -/
structure Formatter where
  GroupSeparator : List Char := []
  GroupSize : Int := 0
  DecimalSeparator : List Char := []
  Rounder : Option Rounder := none
  Shift : Int := 0
  MinDecimalPlaces : Int := 0
  Template : List Char := []
  NegativeTemplate : List Char := []
  deriving DecidableEq

/-- One step of a compiled template (the compiledTemplatePart implementations
of the source: literal text, the number, the optional negative sign, the
forced sign). -/
inductive CTPart where
  | literal (s : List Char)
  | number
  | optionalSign
  | forceSign
  deriving DecidableEq

/-- State of the template compiler loop: the steps emitted so far, the
pending literal run, whether a bare sign verb was seen, and whether a
backslash escape is pending. -/
structure CTState where
  parts : List CTPart
  literal : List Char
  explicitSign : Bool
  escape : Bool
  deriving DecidableEq

/-- Flush the pending literal run into the step list if it is nonempty (the
source flushes it before every verb and at end of input). -/
def ctFlush (st : CTState) : List CTPart :=
  if st.literal.isEmpty then st.parts else st.parts ++ [CTPart.literal st.literal]

/-- One iteration of the template compiler's byte loop. -/
def ctStep (st : CTState) (b : Char) : CTState :=
  if st.escape then ⟨st.parts, st.literal ++ [b], st.explicitSign, false⟩
  else if b = '\\' then ⟨st.parts, st.literal, st.explicitSign, true⟩
  else if b = 'n' then ⟨ctFlush st ++ [CTPart.number], [], st.explicitSign, false⟩
  else if b = '-' then ⟨ctFlush st ++ [CTPart.optionalSign], [], true, false⟩
  else if b = '+' then ⟨ctFlush st ++ [CTPart.forceSign], [], true, false⟩
  else ⟨st.parts, st.literal ++ [b], st.explicitSign, false⟩

/-- Initial compiler state. -/
def ctInit : CTState := ⟨[], [], false, false⟩

/-- The sign-insertion loop at the end of compileTemplate, modelled exactly as
the Go code executes: the range iterates over the elements the slice ct held
when the loop began (first argument), while appends go to the current ct
(second argument, as the source appends the OptionalSign to ct) and to newCt
(third argument, receiving each ranged part); the function returns the final
(ct, newCt) pair, and the source then overwrites ct with newCt. -/
def signInsertLoop : List CTPart → List CTPart → List CTPart → List CTPart × List CTPart
  | [], ct, newCt => (ct, newCt)
  | p :: rest, ct, newCt =>
    signInsertLoop rest (if p = CTPart.number then ct ++ [CTPart.optionalSign] else ct)
      (newCt ++ [p])

/-- compileTemplate: fold the byte loop over the template, flush the last
literal run, and, when no explicit sign verb was seen, run the
sign-insertion loop and keep its newCt result. -/
def compileTemplate (s : List Char) : List CTPart :=
  let st := s.foldl ctStep ctInit
  let ct := ctFlush st
  if st.explicitSign then ct else (signInsertLoop ct ct []).2

/-- Go slice expression num[a:b] for integer indices: defined exactly when
0 ≤ a ≤ b ≤ len(num), and a panic (none) otherwise. -/
def goSlice (num : List Char) (a b : Int) : Option (List Char) :=
  if 0 ≤ a ∧ a ≤ b ∧ b ≤ (num.length : Int) then
    some ((num.drop a.toNat).take (b - a).toNat)
  else none

/-- The separator-writing loop of writeSeparateGroups: runs the given number
of iterations, each appending the separator and the slice
num[numIdx : numIdx+size], advancing numIdx by size. -/
def wsgLoop (num sep : List Char) (size : Int) : Nat → Int → List Char → Option (List Char)
  | 0, _, acc => some acc
  | k + 1, numIdx, acc =>
    match goSlice num numIdx (numIdx + size) with
    | none => none
    | some seg => wsgLoop num sep size k (numIdx + size) (acc ++ sep ++ seg)

/-- writeSeparateGroups: returns num unchanged when the separator is empty,
the size is zero, or num is no longer than the size; otherwise computes the
separator count and first-chunk length with Go's truncated division and
remainder, writes the first chunk, and runs the separator loop.  Division and
remainder follow Go int semantics (truncation toward zero); the loop executes
max(sepCount, 0) iterations. -/
def writeSeparateGroups (num sep : List Char) (size : Int) : Option (List Char) :=
  if sep.length = 0 ∨ size = 0 ∨ (num.length : Int) ≤ size then some num
  else
    let sepCount0 := Int.tdiv (num.length : Int) size
    let numIdx0 := Int.tmod (num.length : Int) size
    let numIdx := if numIdx0 = 0 then size else numIdx0
    let sepCount := if numIdx0 = 0 then sepCount0 - 1 else sepCount0
    match goSlice num 0 numIdx with
    | none => none
    | some first => wsgLoop num sep size sepCount.toNat numIdx first

/-- Group separator with its default (the Number step applies "," when the
configured separator is empty). -/
def resolvedGroupSep (f : Formatter) : List Char :=
  if f.GroupSeparator.isEmpty then [','] else f.GroupSeparator

/-- Group size with its default (the Number step applies 3 when the
configured size is zero). -/
def resolvedGroupSize (f : Formatter) : Int :=
  if f.GroupSize = 0 then 3 else f.GroupSize

/-- Decimal separator with its default (the Number step applies "." when the
configured separator is empty). -/
def resolvedDecimalSep (f : Formatter) : List Char :=
  if f.DecimalSeparator.isEmpty then ['.'] else f.DecimalSeparator

/-- The text one template step writes (the write methods of the four step
types); the Number step can panic inside writeSeparateGroups. -/
def partWrite (f : Formatter) (neg : Bool) (intPart fracPart : List Char) :
    CTPart → Option (List Char)
  | CTPart.literal s => some s
  | CTPart.number =>
    match writeSeparateGroups intPart (resolvedGroupSep f) (resolvedGroupSize f) with
    | none => none
    | some grouped =>
      some (grouped ++ if fracPart.isEmpty then [] else resolvedDecimalSep f ++ fracPart)
  | CTPart.optionalSign => some (if neg then ['-'] else [])
  | CTPart.forceSign => some (if neg then ['-'] else ['+'])

/-- Execute a compiled template: write every step in order into the output
buffer. -/
def ctWrite (f : Formatter) (neg : Bool) (intPart fracPart : List Char) :
    List CTPart → Option (List Char)
  | [] => some []
  | p :: ps =>
    match partWrite f neg intPart fracPart p with
    | none => none
    | some out =>
      match ctWrite f neg intPart fracPart ps with
      | none => none
      | some rest => some (out ++ rest)

/-- strings.SplitN(s, ".", 2): the text before the first dot, and the text
after it when a dot occurs. -/
def splitDot : List Char → List Char × Option (List Char)
  | [] => ([], none)
  | c :: rest =>
    if c = '.' then ([], some rest)
    else
      let r := splitDot rest
      (c :: r.1, r.2)

/-- The minimum-decimal-places padding step of formatDecimal: when the
fraction is shorter than MinDecimalPlaces, a buffer of exactly
MinDecimalPlaces bytes is built holding the fraction followed by zeros. -/
def padFrac (minPlaces : Int) (fracPart : List Char) : List Char :=
  if (fracPart.length : Int) < minPlaces then
    fracPart ++ List.replicate (minPlaces.toNat - fracPart.length) '0'
  else fracPart

/-- The compiled positive/general template (compileTemplates: the literal n
when the Template field is empty). -/
def compiledTemplate (f : Formatter) : List CTPart :=
  compileTemplate (if f.Template.isEmpty then ['n'] else f.Template)

/-- The compiled negative template (compileTemplates leaves it nil when the
NegativeTemplate field is empty). -/
def compiledNegativeTemplate (f : Formatter) : Option (List CTPart) :=
  if f.NegativeTemplate.isEmpty then none else some (compileTemplate f.NegativeTemplate)

/-- The template-selection step at the end of formatDecimal: the compiled
negative template is used when the value is negative and that template is
non-nil; otherwise the compiled general template is used. -/
def writeTemplates (f : Formatter) (neg : Bool) (intPart fracPart : List Char) :
    Option (List Char) :=
  if neg && (compiledNegativeTemplate f).isSome then
    ctWrite f neg intPart fracPart ((compiledNegativeTemplate f).getD [])
  else
    ctWrite f neg intPart fracPart (compiledTemplate f)

/-- formatDecimal: shift when Shift is nonzero, round when a Rounder is set,
render the canonical decimal string, split it at the first dot, detect and
strip a leading minus (indexing intPart[0] panics when the integer part is
empty), pad the fraction, and execute the selected template. -/
def formatDecimal (f : Formatter) (d : Dec) : Option (List Char) :=
  let d1 := if f.Shift ≠ 0 then d.shift f.Shift else d
  let d2 := match f.Rounder with
    | some r => d1.round r.Places
    | none => d1
  let sp := splitDot d2.toStr
  let fracPart0 := (sp.2).getD []
  match sp.1 with
  | [] => none
  | c :: rest =>
    let neg := c = '-'
    let intPart := if neg then rest else c :: rest
    let fracPart := padFrac f.MinDecimalPlaces fracPart0
    writeTemplates f neg intPart fracPart

/-- The values Format accepts: the decimal type, a string, int32, int64, or
any other value carried by its fmt.Sprint rendering. -/
inductive GoValue where
  | dec (d : Dec)
  | str (s : List Char)
  | i32 (n : Int)
  | i64 (n : Int)
  | other (sprint : List Char)
  deriving DecidableEq

/-- Format: dispatch on the dynamic type of the value; strings and generic
values are parsed as decimals, returning the plain string form unchanged on
parse failure; int32 and int64 are converted exactly. -/
def Formatter.format (f : Formatter) : GoValue → Option (List Char)
  | GoValue.dec d => formatDecimal f d
  | GoValue.str s =>
    match NewFromString s with
    | none => some s
    | some d => formatDecimal f d
  | GoValue.i32 n => formatDecimal f ⟨n, 0⟩
  | GoValue.i64 n => formatDecimal f ⟨n, 0⟩
  | GoValue.other s =>
    match NewFromString s with
    | none => some s
    | some d => formatDecimal f d

/-! ## TemplateFunc (keyed-configuration entry point) -/

/-- fmt.Sprint of a value (the decimal type prints via its String method;
strings print as themselves; integers print in decimal). -/
def sprintVal : GoValue → List Char
  | GoValue.dec d => d.toStr
  | GoValue.str s => s
  | GoValue.i32 n => intDigits n
  | GoValue.i64 n => intDigits n
  | GoValue.other s => s

/-- Reinterpret an integer as a 32-bit two's-complement value (the int32
conversion applied to a parsed int64). -/
def int32wrap (n : Int) : Int := Int.emod (n + 2 ^ 31) (2 ^ 32) - 2 ^ 31

/-- The errors TemplateFunc can return: an unrecognized key, or a value for
a numeric key that ParseInt rejects. -/
inductive TFErr where
  | unknownKey (k : GoValue)
  | invalidInt (s : List Char)
  deriving DecidableEq

/-- The body of TemplateFunc's key switch for one key/value pair: a key
matches only when it is a string equal to one of the eight recognized names;
numeric keys parse their value's Sprint form with ParseInt (bit size 64,
except 32 for RoundPlaces), and Shift and MinDecimalPlaces then narrow the
result to int32. -/
def applyPair (f : Formatter) (key v : GoValue) : Except TFErr Formatter :=
  let strValue := sprintVal v
  match key with
  | GoValue.str s =>
    if s = ("GroupSeparator").toList then Except.ok { f with GroupSeparator := strValue }
    else if s = ("GroupSize").toList then
      match goParseInt strValue 64 with
      | none => Except.error (TFErr.invalidInt strValue)
      | some n => Except.ok { f with GroupSize := n }
    else if s = ("DecimalSeparator").toList then Except.ok { f with DecimalSeparator := strValue }
    else if s = ("RoundPlaces").toList then
      match goParseInt strValue 32 with
      | none => Except.error (TFErr.invalidInt strValue)
      | some n => Except.ok { f with Rounder := some ⟨n⟩ }
    else if s = ("Shift").toList then
      match goParseInt strValue 64 with
      | none => Except.error (TFErr.invalidInt strValue)
      | some n => Except.ok { f with Shift := int32wrap n }
    else if s = ("MinDecimalPlaces").toList then
      match goParseInt strValue 64 with
      | none => Except.error (TFErr.invalidInt strValue)
      | some n => Except.ok { f with MinDecimalPlaces := int32wrap n }
    else if s = ("Template").toList then Except.ok { f with Template := strValue }
    else if s = ("NegativeTemplate").toList then Except.ok { f with NegativeTemplate := strValue }
    else Except.error (TFErr.unknownKey key)
  | _ => Except.error (TFErr.unknownKey key)

/-- TemplateFunc's configuration loop: consumes the arguments two at a time
while at least two remain (the Go loop runs while i < len(args)-1), so a
single trailing argument is left over as the value to format. -/
def tfLoop (f : Formatter) : List GoValue → Except TFErr (Formatter × Option GoValue)
  | [] => Except.ok (f, none)
  | [v] => Except.ok (f, some v)
  | k :: v :: rest =>
    match applyPair f k v with
    | Except.error e => Except.error e
    | Except.ok f2 => tfLoop f2 rest

/-- TemplateFunc's result: a reusable formatting function (carrying its
configuration) for an even argument count, or the immediately formatted
string for an odd count. -/
inductive TFResult where
  | fn (f : Formatter)
  | formatted (s : Option (List Char))
  deriving DecidableEq

/-- TemplateFunc: build a Formatter from the key/value pairs, then either
return its Format method or apply it to the trailing argument. -/
def TemplateFunc (args : List GoValue) : Except TFErr TFResult :=
  match tfLoop {} args with
  | Except.error e => Except.error e
  | Except.ok (f, none) => Except.ok (TFResult.fn f)
  | Except.ok (f, some v) => Except.ok (TFResult.formatted (f.format v))

/-- The key/value pairs TemplateFunc's loop processes: the arguments chunked
in twos, ignoring a trailing odd argument. -/
def pairsOf : List GoValue → List (GoValue × GoValue)
  | [] => []
  | [_] => []
  | a :: b :: rest => (a, b) :: pairsOf rest

/-- A key/value pair on which TemplateFunc fails: the key is not a string
equal to a recognized name, or it names a numeric option whose value does
not parse as an integer of the required width. -/
def badPair (k v : GoValue) : Bool :=
  match k with
  | GoValue.str s =>
    if s = ("GroupSeparator").toList ∨ s = ("DecimalSeparator").toList ∨
        s = ("Template").toList ∨ s = ("NegativeTemplate").toList then false
    else if s = ("GroupSize").toList ∨ s = ("Shift").toList ∨
        s = ("MinDecimalPlaces").toList then (goParseInt (sprintVal v) 64).isNone
    else if s = ("RoundPlaces").toList then (goParseInt (sprintVal v) 32).isNone
    else true
  | _ => true

/-! ## Spec-side grouping (the words of section 4.2 of the spec, used to
compare the grouping renderer against its specification) -/

/-- Fuelled splitting of a string into consecutive chunks of a fixed size
(the fuel is an upper bound on the number of chunks; it is always sufficient
when the size is positive). -/
def chunksExactAux : Nat → Nat → List Char → List (List Char)
  | _, _, [] => []
  | 0, _, l => [l]
  | fuel + 1, s, l => l.take s :: chunksExactAux fuel s (l.drop s)

/-- Split a string into consecutive chunks of the given size, left to right;
every chunk but possibly the last has exactly that size. -/
def chunksExact (s : Nat) (l : List Char) : List (List Char) :=
  chunksExactAux l.length s l

/-- Grouping as the spec words it: digits unchanged when the separator is
empty, the size is at most zero, or the digit string is no longer than the
size; otherwise the digits are partitioned from the right into chunks of
exactly the given size, the leftmost chunk holding the remainder (or a full
size when evenly divisible), joined left to right by the separator. -/
def groupSpec (digits sep : List Char) (size : Int) : List Char :=
  if sep = [] ∨ size ≤ 0 ∨ (digits.length : Int) ≤ size then digits
  else
    let s := size.toNat
    let r := digits.length % s
    let headLen := if r = 0 then s else r
    List.intercalate sep (digits.take headLen :: chunksExact s (digits.drop headLen))

/-! ## Derived definitions used to state properties of the pipeline -/

/-- Whether a backslash escape is pending after the compiler has consumed the
given prefix of a template (true exactly when the prefix ends in an unescaped
backslash). -/
def ctEscapeAfter (s : List Char) : Bool := (List.foldl ctStep ctInit s).escape

/-- The tail of formatDecimal after the shift and round stages: render the
canonical string, split at the first dot, detect and strip the sign, pad the
fraction and execute the selected template.  Used to state that the pipeline
is exactly this tail applied to the shifted-then-rounded value. -/
def renderDecimalParts (f : Formatter) (d2 : Dec) : Option (List Char) :=
  let sp := splitDot d2.toStr
  let fracPart0 := (sp.2).getD []
  match sp.1 with
  | [] => none
  | c :: rest =>
    let neg := c = '-'
    let intPart := if neg then rest else c :: rest
    writeTemplates f neg intPart (padFrac f.MinDecimalPlaces fracPart0)

/-! ## Helper lemmas: digit strings and the shape of canonical decimals -/

theorem digitChar_ne_dot_dash (k : Nat) : digitChar k ≠ '.' ∧ digitChar k ≠ '-' := by
  unfold digitChar
  split <;> exact ⟨by decide, by decide⟩

theorem natDigitsAux_ne_nil (fuel n : Nat) : natDigitsAux (fuel + 1) n ≠ [] := by
  unfold natDigitsAux
  split
  · simp
  · simp

theorem natDigits_ne_nil (n : Nat) : natDigits n ≠ [] := natDigitsAux_ne_nil n n

theorem natDigitsAux_mem (fuel n : Nat) :
    ∀ c ∈ natDigitsAux fuel n, c ≠ '.' ∧ c ≠ '-' := by
  induction fuel generalizing n with
  | zero => intro c hc; simp [natDigitsAux] at hc
  | succ fuel ih =>
    intro c hc
    unfold natDigitsAux at hc
    split at hc
    · simp at hc
      subst hc
      exact digitChar_ne_dot_dash n
    · rcases List.mem_append.mp hc with h | h
      · exact ih _ c h
      · simp at h
        subst h
        exact digitChar_ne_dot_dash (n % 10)

theorem natDigits_mem (n : Nat) : ∀ c ∈ natDigits n, c ≠ '.' ∧ c ≠ '-' :=
  natDigitsAux_mem (n + 1) n

theorem splitDot_no_dot (l : List Char) (h : ∀ c ∈ l, c ≠ '.') :
    splitDot l = (l, none) := by
  induction l with
  | nil => rfl
  | cons c rest ih =>
    unfold splitDot
    rw [if_neg (h c (List.mem_cons_self c rest))]
    rw [ih fun x hx => h x (List.mem_cons_of_mem c hx)]

theorem splitDot_append (a b : List Char) (h : ∀ c ∈ a, c ≠ '.') :
    splitDot (a ++ b) = (a ++ (splitDot b).1, (splitDot b).2) := by
  induction a with
  | nil => simp
  | cons c rest ih =>
    simp only [List.cons_append, splitDot, List.append_eq]
    rw [if_neg (h c (List.mem_cons_self c rest)),
      ih fun x hx => h x (List.mem_cons_of_mem c hx)]

/-- The canonical decimal string always has a nonempty integer part: the
text before the first dot is nonempty, so the sign check intPart[0] in
formatDecimal is in bounds. -/
theorem splitDot_toStr_fst_ne_nil (d : Dec) : (splitDot d.toStr).1 ≠ [] := by
  unfold Dec.toStr
  split
  · -- nonnegative exponent: the whole string is the integer part
    unfold intDigits
    split
    · simp only [splitDot]
      rw [if_neg (by decide)]
      simp
    · rw [splitDot_no_dot _ fun c hc => (natDigits_mem _ c hc).1]
      simp [natDigits_ne_nil]
  · -- negative exponent: integer digits, then possibly a dot and fraction
    set str := natDigits (Dec.value d).natAbs with hstr
    set e := (-(Dec.exp d)).toNat
    set ip := if e < str.length then str.take (str.length - e) else ['0'] with hip
    have hipne : ip ≠ [] := by
      rw [hip]
      split
      · next hlt =>
        intro hcon
        rcases List.take_eq_nil_iff.mp hcon with h1 | h1
        · omega
        · exact natDigits_ne_nil _ h1
      · simp
    have hipdot : ∀ c ∈ ip, c ≠ '.' := by
      rw [hip]
      split
      · intro c hc
        exact (natDigits_mem _ c (List.mem_of_mem_take hc)).1
      · intro c hc
        simp at hc
        subst hc
        decide
    set fp := trimTrailingZeros
        (if e < str.length then str.drop (str.length - e)
         else List.replicate (e - str.length) '0' ++ str) with hfp
    simp only
    split
    · -- negative coefficient: a minus sign is prefixed
      rw [show ('-' :: (ip ++ if fp.isEmpty then [] else '.' :: fp)) =
            ('-' :: ip) ++ (if fp.isEmpty then [] else '.' :: fp) by simp]
      rw [splitDot_append ('-' :: ip) _ ?_]
      · simp
      · intro c hc
        rcases List.mem_cons.mp hc with h | h
        · subst h; decide
        · exact hipdot c h
    · rw [splitDot_append ip _ hipdot]
      simp [hipne]

/-! ## Helper lemmas: the grouping renderer against the spec's partition -/

theorem intercalate_cons_eq_flatten (sep x : List Char) (xs : List (List Char)) :
    List.intercalate sep (x :: xs) = x ++ (xs.map fun c => sep ++ c).flatten := by
  induction xs generalizing x with
  | nil => simp [List.intercalate]
  | cons y ys ih =>
    have step : List.intercalate sep (x :: y :: ys) = x ++ sep ++ List.intercalate sep (y :: ys) := by
      simp [List.intercalate, List.intersperse_cons_cons]
    rw [step, ih]
    simp

theorem chunksExactAux_nil (fuel s : Nat) : chunksExactAux fuel s [] = [] := by
  cases fuel <;> rfl

theorem chunksExactAux_cons (fuel s : Nat) (c : Char) (rest : List Char) :
    chunksExactAux (fuel + 1) s (c :: rest) =
      (c :: rest).take s :: chunksExactAux fuel s ((c :: rest).drop s) := rfl

theorem chunksExactAux_fuel (s : Nat) (hs : 0 < s) :
    ∀ fuel l, l.length ≤ fuel → chunksExactAux fuel s l = chunksExact s l := by
  intro fuel
  induction fuel using Nat.strong_induction_on with
  | _ fuel ih =>
    intro l hlen
    cases l with
    | nil =>
      unfold chunksExact
      rw [chunksExactAux_nil, chunksExactAux_nil]
    | cons c rest =>
      cases fuel with
      | zero => simp at hlen
      | succ fuel =>
        have hrest : rest.length ≤ fuel := by simp at hlen; omega
        have hdrop : ((c :: rest).drop s).length ≤ rest.length := by simp; omega
        rw [chunksExactAux_cons]
        unfold chunksExact
        rw [show (c :: rest).length = rest.length + 1 from rfl, chunksExactAux_cons]
        rw [ih fuel (by omega) _ (le_trans hdrop hrest)]
        rw [ih rest.length (by omega) _ hdrop]

theorem chunksExact_cons (s : Nat) (l : List Char) (hs : 0 < s) (hl : l ≠ []) :
    chunksExact s l = l.take s :: chunksExact s (l.drop s) := by
  match l with
  | c :: rest =>
    unfold chunksExact
    rw [show (c :: rest).length = rest.length + 1 from rfl, chunksExactAux_cons]
    rw [chunksExactAux_fuel s hs rest.length _ (by simp; omega)]
    rfl

theorem wsgLoop_spec (num sep : List Char) (S : Nat) (hS : 0 < S) :
    ∀ (k j : Nat) (acc : List Char), j + k * S = num.length →
      wsgLoop num sep (S : Int) k (j : Int) acc =
        some (acc ++ ((chunksExact S (num.drop j)).map fun c => sep ++ c).flatten) := by
  intro k
  induction k with
  | zero =>
    intro j acc hj
    simp at hj
    unfold wsgLoop
    rw [hj, List.drop_length]
    unfold chunksExact
    rw [chunksExactAux_nil]
    simp
  | succ k ih =>
    intro j acc hj
    rw [show (k + 1) * S = k * S + S from by ring] at hj
    unfold wsgLoop
    have hle : j + S ≤ num.length := by omega
    have h1 : (0 : Int) ≤ (j : Int) := by positivity
    have h2 : (j : Int) ≤ (j : Int) + (S : Int) := by omega
    have h3 : (j : Int) + (S : Int) ≤ (num.length : Int) := by omega
    have hslice : goSlice num (j : Int) ((j : Int) + (S : Int)) = some ((num.drop j).take S) := by
      unfold goSlice
      rw [if_pos ⟨h1, h2, h3⟩]
      simp
    rw [hslice]
    have hcast : (j : Int) + (S : Int) = ((j + S : Nat) : Int) := by push_cast; ring
    dsimp only
    rw [hcast]
    rw [ih (j + S) (acc ++ sep ++ (num.drop j).take S) (by omega)]
    have hne : num.drop j ≠ [] := by
      intro hcon
      have := congrArg List.length hcon
      simp at this
      omega
    rw [chunksExact_cons S (num.drop j) hS hne]
    rw [List.drop_drop]
    simp [List.append_assoc]

/-- The central grouping lemma: for every nonnegative group size the Go
grouping renderer neither panics nor deviates from the spec's
partition-from-the-right description. -/
theorem wsg_eq_groupSpec (num sep : List Char) (size : Int) (h : 0 ≤ size) :
    writeSeparateGroups num sep size = some (groupSpec num sep size) := by
  unfold writeSeparateGroups groupSpec
  by_cases hguard : sep.length = 0 ∨ size = 0 ∨ (num.length : Int) ≤ size
  · rw [if_pos hguard, if_pos ?_]
    rcases hguard with h1 | h1 | h1
    · exact Or.inl (List.length_eq_zero.mp h1)
    · exact Or.inr (Or.inl (le_of_eq h1))
    · exact Or.inr (Or.inr h1)
  · rw [if_neg hguard, if_neg ?_]
    swap
    · intro hcon
      rcases hcon with h1 | h1 | h1
      · exact hguard (Or.inl (by simp [h1]))
      · exact hguard (Or.inr (Or.inl (le_antisymm h1 h)))
      · exact hguard (Or.inr (Or.inr h1))
    push_neg at hguard
    obtain ⟨hsep, hsz, hlen⟩ := hguard
    obtain ⟨S, rfl⟩ : ∃ n : Nat, size = (n : Int) := ⟨size.toNat, by omega⟩
    have hSpos : 0 < S := by omega
    have hL : S < num.length := by
      have : (S : Int) < (num.length : Int) := hlen
      omega
    have htdiv : Int.tdiv (num.length : Int) (S : Int) = ((num.length / S : Nat) : Int) := rfl
    have htmod : Int.tmod (num.length : Int) (S : Int) = ((num.length % S : Nat) : Int) := rfl
    dsimp only
    simp only [Int.toNat_natCast]
    rw [htdiv, htmod]
    by_cases hr : num.length % S = 0
    · -- evenly divisible: the first chunk is a full group
      rw [if_pos (by rw [hr]; rfl), if_pos (by rw [hr]; rfl), if_pos hr]
      have hslice0 : goSlice num 0 (S : Int) = some (num.take S) := by
        unfold goSlice
        rw [if_pos ⟨le_refl 0, by positivity, by omega⟩]
        simp
      rw [hslice0]
      have hq1 : 1 ≤ num.length / S := (Nat.one_le_div_iff hSpos).mpr (le_of_lt hL)
      have htn : (((num.length / S : Nat) : Int) - 1).toNat = num.length / S - 1 := by omega
      dsimp only
      rw [htn]
      have hj : S + (num.length / S - 1) * S = num.length := by
        have hdvd : S * (num.length / S) = num.length :=
          Nat.mul_div_cancel' (Nat.dvd_of_mod_eq_zero hr)
        calc S + (num.length / S - 1) * S = S * (1 + (num.length / S - 1)) := by ring
        _ = S * (num.length / S) := by congr 1; omega
        _ = num.length := hdvd
      rw [wsgLoop_spec num sep S hSpos (num.length / S - 1) S (num.take S) hj]
      rw [intercalate_cons_eq_flatten]
    · -- a remainder chunk leads
      have hrcast : ¬ ((num.length % S : Nat) : Int) = 0 := by
        intro hcon
        exact hr (by omega)
      rw [if_neg hrcast, if_neg hrcast, if_neg hr]
      have hmodle : ((num.length % S : Nat) : Int) ≤ (num.length : Int) := by
        have := Nat.mod_le num.length S
        omega
      have hslice0 : goSlice num 0 ((num.length % S : Nat) : Int) =
          some (num.take (num.length % S)) := by
        unfold goSlice
        rw [if_pos ⟨le_refl 0, by positivity, hmodle⟩, sub_zero]
        rfl
      rw [hslice0]
      have htn : (((num.length / S : Nat) : Int)).toNat = num.length / S :=
        Int.toNat_natCast _
      dsimp only
      rw [htn]
      have hj : num.length % S + (num.length / S) * S = num.length := Nat.mod_add_div' num.length S
      rw [wsgLoop_spec num sep S hSpos (num.length / S) (num.length % S)
        (num.take (num.length % S)) hj]
      rw [intercalate_cons_eq_flatten]

/-! ## Helper lemmas: totality of the rendering pipeline for nonnegative
group sizes -/

theorem partWrite_isSome (f : Formatter) (neg : Bool) (ip fp : List Char)
    (h : 0 ≤ f.GroupSize) (p : CTPart) : (partWrite f neg ip fp p).isSome := by
  cases p with
  | literal s => rfl
  | number =>
    have hres : 0 ≤ resolvedGroupSize f := by
      unfold resolvedGroupSize
      split
      · norm_num
      · exact h
    unfold partWrite
    rw [wsg_eq_groupSpec ip (resolvedGroupSep f) (resolvedGroupSize f) hres]
    rfl
  | optionalSign => rfl
  | forceSign => rfl

theorem ctWrite_isSome (f : Formatter) (neg : Bool) (ip fp : List Char)
    (h : 0 ≤ f.GroupSize) (parts : List CTPart) : (ctWrite f neg ip fp parts).isSome := by
  induction parts with
  | nil => rfl
  | cons p ps ih =>
    unfold ctWrite
    obtain ⟨out, hout⟩ := Option.isSome_iff_exists.mp (partWrite_isSome f neg ip fp h p)
    obtain ⟨rest, hrest⟩ := Option.isSome_iff_exists.mp ih
    rw [hout, hrest]
    rfl

theorem writeTemplates_isSome (f : Formatter) (neg : Bool) (ip fp : List Char)
    (h : 0 ≤ f.GroupSize) : (writeTemplates f neg ip fp).isSome := by
  unfold writeTemplates
  split <;> exact ctWrite_isSome f neg ip fp h _

theorem formatDecimal_isSome (f : Formatter) (d : Dec) (h : 0 ≤ f.GroupSize) :
    (formatDecimal f d).isSome := by
  unfold formatDecimal
  set d1 := if f.Shift ≠ 0 then d.shift f.Shift else d
  set d2 := match f.Rounder with
    | some r => d1.round r.Places
    | none => d1
  have hne := splitDot_toStr_fst_ne_nil d2
  cases hsp : (splitDot d2.toStr).1 with
  | nil => exact absurd hsp hne
  | cons c rest =>
    dsimp only
    rw [hsp]
    exact writeTemplates_isSome f _ _ _ h

theorem format_isSome (f : Formatter) (v : GoValue) (h : 0 ≤ f.GroupSize) :
    (f.format v).isSome := by
  cases v with
  | dec d => exact formatDecimal_isSome f d h
  | str s =>
    cases hp : NewFromString s with
    | none => simp [Formatter.format, hp]
    | some d => simp [Formatter.format, hp, formatDecimal_isSome f d h]
  | i32 n => exact formatDecimal_isSome f _ h
  | i64 n => exact formatDecimal_isSome f _ h
  | other s =>
    cases hp : NewFromString s with
    | none => simp [Formatter.format, hp]
    | some d => simp [Formatter.format, hp, formatDecimal_isSome f d h]

/-! ## Helper lemmas: the template compiler's escape handling -/

theorem ctStep_backslash (st : CTState) (h : st.escape = false) :
    ctStep st '\\' = ⟨st.parts, st.literal, st.explicitSign, true⟩ := by
  unfold ctStep
  rw [if_neg (by simp [h]), if_pos rfl]

theorem ctStep_escaped (st : CTState) (c : Char) (h : st.escape = true) :
    ctStep st c = ⟨st.parts, st.literal ++ [c], st.explicitSign, false⟩ := by
  unfold ctStep
  rw [if_pos h]

/-- Folding the compiler over an escaped character from a state with no
pending escape appends that character to the literal run, with no step
emitted and no sign verb recorded, whatever the character is. -/
theorem ctFold_escape_pair (s : List Char) (c : Char) (h : ctEscapeAfter s = false) :
    List.foldl ctStep ctInit (s ++ ['\\', c]) =
      ⟨(List.foldl ctStep ctInit s).parts,
       (List.foldl ctStep ctInit s).literal ++ [c],
       (List.foldl ctStep ctInit s).explicitSign, false⟩ := by
  rw [List.foldl_append]
  unfold ctEscapeAfter at h
  show ctStep (ctStep (List.foldl ctStep ctInit s) '\\') c = _
  rw [ctStep_backslash _ h, ctStep_escaped _ c rfl]

/-- A trailing unescaped backslash is dropped silently: the compiler sets the
escape flag and then reaches end of input, where only the parts and the
pending literal run are flushed. -/
theorem compileTemplate_trailing_backslash (s : List Char) (h : ctEscapeAfter s = false) :
    compileTemplate (s ++ ['\\']) = compileTemplate s := by
  unfold compileTemplate
  rw [List.foldl_append]
  unfold ctEscapeAfter at h
  show (let st := ctStep (List.foldl ctStep ctInit s) '\\'
        let ct := ctFlush st
        if st.explicitSign then ct else (signInsertLoop ct ct []).2) = _
  rw [ctStep_backslash _ h]
  rfl

/-! ## Helper lemmas: TemplateFunc's error condition -/

theorem applyPair_error_iff (f : Formatter) (k v : GoValue) :
    (∃ e, applyPair f k v = Except.error e) ↔ badPair k v = true := by
  cases k with
  | str s =>
    by_cases h1 : s = ("GroupSeparator").toList
    · subst h1
      simp +decide [applyPair, badPair]
    by_cases h2 : s = ("GroupSize").toList
    · subst h2
      rcases hp : goParseInt (sprintVal v) 64 with _ | m <;>
        simp +decide [applyPair, badPair, hp]
    by_cases h3 : s = ("DecimalSeparator").toList
    · subst h3
      simp +decide [applyPair, badPair]
    by_cases h4 : s = ("RoundPlaces").toList
    · subst h4
      rcases hp : goParseInt (sprintVal v) 32 with _ | m <;>
        simp +decide [applyPair, badPair, hp]
    by_cases h5 : s = ("Shift").toList
    · subst h5
      rcases hp : goParseInt (sprintVal v) 64 with _ | m <;>
        simp +decide [applyPair, badPair, hp]
    by_cases h6 : s = ("MinDecimalPlaces").toList
    · subst h6
      rcases hp : goParseInt (sprintVal v) 64 with _ | m <;>
        simp +decide [applyPair, badPair, hp]
    by_cases h7 : s = ("Template").toList
    · subst h7
      simp +decide [applyPair, badPair]
    by_cases h8 : s = ("NegativeTemplate").toList
    · subst h8
      simp +decide [applyPair, badPair]
    have hbp : badPair (GoValue.str s) v = true := by
      unfold badPair
      dsimp only
      rw [if_neg ?hA, if_neg ?hB, if_neg h4]
      case hA =>
        intro hc
        rcases hc with hc | hc | hc | hc
        exacts [h1 hc, h3 hc, h7 hc, h8 hc]
      case hB =>
        intro hc
        rcases hc with hc | hc | hc
        exacts [h2 hc, h5 hc, h6 hc]
    have hap : applyPair f (GoValue.str s) v =
        Except.error (TFErr.unknownKey (GoValue.str s)) := by
      unfold applyPair
      dsimp only
      rw [if_neg h1, if_neg h2, if_neg h3, if_neg h4, if_neg h5, if_neg h6, if_neg h7,
        if_neg h8]
    rw [hbp, hap]
    simp
  | dec d => simp [applyPair, badPair]
  | i32 n => simp [applyPair, badPair]
  | i64 n => simp [applyPair, badPair]
  | other s => simp [applyPair, badPair]

theorem tfLoop_characterization :
    ∀ (n : Nat) (args : List GoValue) (f0 : Formatter), args.length ≤ n →
      ((∃ e, tfLoop f0 args = Except.error e) ↔
        ∃ p ∈ pairsOf args, badPair p.1 p.2 = true) ∧
      (∀ f1 rem, tfLoop f0 args = Except.ok (f1, rem) →
        (args.length % 2 = 0 → rem = none) ∧
        (args.length % 2 = 1 → ∃ v, args.getLast? = some v ∧ rem = some v)) := by
  intro n
  induction n with
  | zero =>
    intro args f0 hlen
    have : args = [] := List.length_eq_zero.mp (Nat.le_zero.mp hlen)
    subst this
    refine ⟨by simp [tfLoop, pairsOf], ?_⟩
    intro f1 rem hok
    simp [tfLoop] at hok
    simp [hok.2]
  | succ n ih =>
    intro args f0 hlen
    match args with
    | [] =>
      refine ⟨by simp [tfLoop, pairsOf], ?_⟩
      intro f1 rem hok
      simp [tfLoop] at hok
      simp [hok.2]
    | [v] =>
      refine ⟨by simp [tfLoop, pairsOf], ?_⟩
      intro f1 rem hok
      simp [tfLoop] at hok
      exact ⟨fun h0 => by simp at h0, fun _ => ⟨v, by simp, hok.2.symm⟩⟩
    | k :: v :: rest =>
      have hrest : rest.length ≤ n := by simp at hlen; omega
      constructor
      · constructor
        · rintro ⟨e, he⟩
          unfold tfLoop at he
          cases hap : applyPair f0 k v with
          | error e2 =>
            exact ⟨(k, v), by simp [pairsOf], (applyPair_error_iff f0 k v).mp ⟨e2, hap⟩⟩
          | ok f2 =>
            rw [hap] at he
            obtain ⟨p, hp, hbad⟩ := ((ih rest f2 hrest).1).mp ⟨e, he⟩
            exact ⟨p, by simp [pairsOf, hp], hbad⟩
        · rintro ⟨p, hp, hbad⟩
          unfold tfLoop
          cases hap : applyPair f0 k v with
          | error e2 => exact ⟨e2, rfl⟩
          | ok f2 =>
            simp [pairsOf] at hp
            rcases hp with hp | hp
            · exfalso
              obtain ⟨e2, he2⟩ := (applyPair_error_iff f0 k v).mpr (by subst hp; exact hbad)
              rw [hap] at he2
              exact Except.noConfusion he2
            · obtain ⟨e, he⟩ := ((ih rest f2 hrest).1).mpr ⟨p, hp, hbad⟩
              exact ⟨e, he⟩
      · intro f1 rem hok
        unfold tfLoop at hok
        cases hap : applyPair f0 k v with
        | error e2 =>
          rw [hap] at hok
          exact Except.noConfusion hok
        | ok f2 =>
          rw [hap] at hok
          have hrec := ((ih rest f2 hrest).2) f1 rem hok
          have hmod : (k :: v :: rest).length % 2 = rest.length % 2 := by simp; omega
          constructor
          · intro hev
            exact hrec.1 (by omega)
          · intro hod
            obtain ⟨w, hw1, hw2⟩ := hrec.2 (by omega)
            refine ⟨w, ?_, hw2⟩
            have hrne : rest ≠ [] := by
              intro hcon
              subst hcon
              simp at hw1
            rw [List.getLast?_cons_cons]
            cases rest with
            | nil => exact absurd rfl hrne
            | cons a as =>
              rw [List.getLast?_cons_cons]
              exact hw1

/-! ## Claim theorems -/

/-- C1: the claim states that compiling a template without an unescaped sign
verb inserts an OptionalSign step after every Number step, so the zero-value
Formatter renders -12345.6789 as -12,345.6789.  The code does not: the
insertion loop appends the OptionalSign step to the slice the range started
on, which is then discarded when ct is overwritten with newCt, so the
compiled default template is just the Number step and the sign of a
negative value is lost — contradicting the Template field's doc comment and
the repository's own tests.  This theorem evaluates the code at the failing
input. -/
theorem c1_sign_insertion_discarded :
    Formatter.format {} (GoValue.str (("-12345.6789").toList)) =
      some (("12,345.6789").toList) ∧
    compileTemplate (['n']) = [CTPart.number] := by
  constructor
  · decide
  · decide

/-- C2 counterexample: the claim says the grouping renderer returns the digit
string unchanged whenever the size is at most zero, but at size -3 the code
falls through the guard (which only tests size equal to zero) and returns
only the first digit of 1234. -/
theorem c2_counterexample :
    writeSeparateGroups (("1234").toList) ([',']) (-3) = some (['1']) ∧
    ¬ writeSeparateGroups (("1234").toList) ([',']) (-3) = some (("1234").toList) := by
  constructor
  · decide
  · decide

/-- C2 (amended): for every nonnegative group size the grouping renderer
matches the spec's description — the digits are returned unchanged when the
separator is empty, the size is zero, or the digit string is no longer than
the size, and otherwise they are partitioned from the right into chunks of
exactly the given size, the leftmost chunk holding the remainder, joined by
the separator.  (For negative sizes the code neither leaves the digits
unchanged nor stays within bounds.) -/
theorem c2_grouping_matches_spec (digits sep : List Char) (size : Int) (h : 0 ≤ size) :
    writeSeparateGroups digits sep size = some (groupSpec digits sep size) :=
  wsg_eq_groupSpec digits sep size h

theorem c2_grouping_matches_spec_witness :
    (0 : Int) ≤ 3 ∧
    writeSeparateGroups (("1234567").toList) ([',']) 3 =
      some (groupSpec (("1234567").toList) ([',']) 3) ∧
    groupSpec (("1234567").toList) ([',']) 3 = ("1,234,567").toList ∧
    groupSpec (("1234").toList) ([',']) 1 = ("1,2,3,4").toList :=
  ⟨by decide, c2_grouping_matches_spec _ _ 3 (by decide), by decide, by decide⟩

/-- C3: the decimal-point shift is applied strictly before rounding: when
both a nonzero Shift and a Rounder are configured, formatDecimal equals the
rest of the pipeline applied to the value first shifted and then rounded;
and concretely Shift 2 with 0 round places on 0.315 renders 32. -/
theorem c3_shift_then_round :
    (∀ (f : Formatter) (d : Dec) (r : Rounder), f.Shift ≠ 0 → f.Rounder = some r →
      formatDecimal f d = renderDecimalParts f (Dec.round (Dec.shift d f.Shift) r.Places)) ∧
    Formatter.format { Shift := 2, Rounder := some ⟨0⟩ } (GoValue.str (("0.315").toList)) =
      some (['3', '2']) := by
  constructor
  · intro f d r h1 h2
    unfold formatDecimal renderDecimalParts
    rw [if_pos h1, h2]
  · decide

theorem c3_shift_then_round_witness :
    ({ Shift := 2, Rounder := some ⟨0⟩ } : Formatter).Shift ≠ 0 ∧
    ({ Shift := 2, Rounder := some ⟨0⟩ } : Formatter).Rounder = some ⟨0⟩ ∧
    formatDecimal { Shift := 2, Rounder := some ⟨0⟩ } ⟨315, -3⟩ =
      renderDecimalParts { Shift := 2, Rounder := some ⟨0⟩ }
        (Dec.round (Dec.shift ⟨315, -3⟩ 2) 0) :=
  ⟨by decide, rfl, c3_shift_then_round.1 _ ⟨315, -3⟩ ⟨0⟩ (by decide) rfl⟩

/-- C4: Format never raises an error: every string that fails to parse as a
decimal literal is returned unchanged, and every other unparseable value is
returned as its Sprint rendering; concretely, formatting foobar with the
default options returns foobar exactly. -/
theorem c4_parse_failure_passthrough :
    (∀ (f : Formatter) (s : List Char), NewFromString s = none →
      f.format (GoValue.str s) = some s ∧ f.format (GoValue.other s) = some s) ∧
    Formatter.format {} (GoValue.str (("foobar").toList)) = some (("foobar").toList) := by
  constructor
  · intro f s h
    constructor
    · simp [Formatter.format, h]
    · simp [Formatter.format, h]
  · decide

theorem c4_parse_failure_passthrough_witness :
    NewFromString (("foobar").toList) = none ∧
    Formatter.format {} (GoValue.str (("foobar").toList)) = some (("foobar").toList) ∧
    Formatter.format {} (GoValue.other (("foobar").toList)) = some (("foobar").toList) :=
  ⟨by decide, (c4_parse_failure_passthrough.1 {} _ (by decide)).1,
    (c4_parse_failure_passthrough.1 {} _ (by decide)).2⟩

/-- C5 counterexample: the claim says a template ending in a single
unescaped backslash compiles with a final Literal step containing that
backslash; in fact the compiler records the pending escape and end of input
flushes only the literal run accumulated before it, so the backslash is
dropped: the template a-backslash compiles to the single literal step a,
which contains no backslash character. -/
theorem c5_counterexample :
    compileTemplate (['a', '\\']) = [CTPart.literal ['a']] ∧
    ('\\' ∉ (['a'] : List Char)) := by
  constructor
  · decide
  · decide

/-- C5 (amended): a trailing unescaped backslash is dropped silently —
compiling a template that ends in a single unescaped backslash yields
exactly the compiled form of the template without it. -/
theorem c5_trailing_backslash_dropped (s : List Char) (h : ctEscapeAfter s = false) :
    compileTemplate (s ++ ['\\']) = compileTemplate s :=
  compileTemplate_trailing_backslash s h

theorem c5_trailing_backslash_dropped_witness :
    ctEscapeAfter ['a'] = false ∧
    compileTemplate (['a'] ++ ['\\']) = compileTemplate ['a'] :=
  ⟨by decide, c5_trailing_backslash_dropped ['a'] (by decide)⟩

/-- C6: a backslash escapes the immediately following character into literal
text, stripping any verb meaning: from any compiler state reached by a
prefix with no pending escape, consuming a backslash and then any character
appends that character to the pending literal run, emitting no step and
recording no sign verb; and concretely the template with escaped n, minus,
plus and backslash applied to 123 renders them all as literals with the
final bare n rendering the number. -/
theorem c6_backslash_escapes :
    (∀ (s : List Char) (c : Char), ctEscapeAfter s = false →
      List.foldl ctStep ctInit (s ++ ['\\', c]) =
        ⟨(List.foldl ctStep ctInit s).parts,
         (List.foldl ctStep ctInit s).literal ++ [c],
         (List.foldl ctStep ctInit s).explicitSign, false⟩) ∧
    Formatter.format { Template := ("\\n \\- \\+ \\\\ n").toList } (GoValue.i64 123) =
      some (("n - + \\ 123").toList) := by
  constructor
  · exact ctFold_escape_pair
  · decide

theorem c6_backslash_escapes_witness :
    ctEscapeAfter ['x'] = false ∧
    List.foldl ctStep ctInit (['x'] ++ ['\\', 'n']) =
      ⟨(List.foldl ctStep ctInit ['x']).parts,
       (List.foldl ctStep ctInit ['x']).literal ++ ['n'],
       (List.foldl ctStep ctInit ['x']).explicitSign, false⟩ :=
  ⟨by decide, c6_backslash_escapes.1 ['x'] 'n' (by decide)⟩

/-- C7: the compiled negative template is used exactly when the value is
negative and NegativeTemplate is non-empty, and the compiled general
template in every other case; concretely NegativeTemplate (n) renders -123
as (123) and renders 123, via the default template, as 123. -/
theorem c7_template_selection :
    (∀ (f : Formatter) (neg : Bool) (ip fp : List Char),
      (neg = true ∧ f.NegativeTemplate ≠ [] →
        writeTemplates f neg ip fp = ctWrite f neg ip fp (compileTemplate f.NegativeTemplate)) ∧
      (neg = false ∨ f.NegativeTemplate = [] →
        writeTemplates f neg ip fp = ctWrite f neg ip fp (compiledTemplate f))) ∧
    Formatter.format { NegativeTemplate := ("(n)").toList } (GoValue.str (("-123").toList)) =
      some (("(123)").toList) ∧
    Formatter.format { NegativeTemplate := ("(n)").toList } (GoValue.str (("123").toList)) =
      some (("123").toList) := by
  refine ⟨?_, by decide, by decide⟩
  intro f neg ip fp
  constructor
  · rintro ⟨hneg, hnt⟩
    have hemp : f.NegativeTemplate.isEmpty = false := by
      cases hft : f.NegativeTemplate with
      | nil => exact absurd hft hnt
      | cons a as => rfl
    subst hneg
    simp [writeTemplates, compiledNegativeTemplate, hemp]
  · rintro (hneg | hnt)
    · subst hneg
      simp [writeTemplates]
    · have hemp : f.NegativeTemplate.isEmpty = true := by rw [hnt]; rfl
      simp [writeTemplates, compiledNegativeTemplate, hemp]

theorem c7_template_selection_witness :
    (true = true ∧ ({ NegativeTemplate := ("(n)").toList } : Formatter).NegativeTemplate ≠ []) ∧
    writeTemplates { NegativeTemplate := ("(n)").toList } true (("123").toList) [] =
      ctWrite { NegativeTemplate := ("(n)").toList } true (("123").toList) []
        (compileTemplate (("(n)").toList)) :=
  ⟨⟨rfl, by decide⟩,
    (c7_template_selection.1 { NegativeTemplate := ("(n)").toList } true _ _).1 ⟨rfl, by decide⟩⟩

/-- C8: the keyed-configuration entry point fails exactly when one of the
processed key/value pairs has an unrecognized key or a numeric key whose
value does not parse as an integer; with no such pair it returns a reusable
formatting function (its built configuration) for an even argument count,
and for an odd count it immediately formats the trailing argument with the
built configuration and returns that string. -/
theorem c8_keyed_entry_point (args : List GoValue) :
    ((∃ e, TemplateFunc args = Except.error e) ↔
      ∃ p ∈ pairsOf args, badPair p.1 p.2 = true) ∧
    ((¬ ∃ p ∈ pairsOf args, badPair p.1 p.2 = true) →
      (args.length % 2 = 0 → ∃ f, TemplateFunc args = Except.ok (TFResult.fn f)) ∧
      (args.length % 2 = 1 → ∃ f v, args.getLast? = some v ∧
        TemplateFunc args = Except.ok (TFResult.formatted (Formatter.format f v)))) := by
  have hchar := tfLoop_characterization args.length args {} (le_refl _)
  constructor
  · rw [← hchar.1]
    unfold TemplateFunc
    cases htf : tfLoop {} args with
    | error e => simp
    | ok fr =>
      cases fr with
      | mk f1 rem =>
        cases rem <;> simp
  · intro hnobad
    have hnoerr : ¬ ∃ e, tfLoop {} args = Except.error e := fun he => hnobad (hchar.1.mp he)
    cases htf : tfLoop {} args with
    | error e => exact absurd ⟨e, htf⟩ hnoerr
    | ok fr =>
      cases fr with
      | mk f1 rem =>
        have hrec := hchar.2 f1 rem htf
        constructor
        · intro heven
          refine ⟨f1, ?_⟩
          unfold TemplateFunc
          rw [htf, hrec.1 heven]
        · intro hodd
          obtain ⟨v, hv1, hv2⟩ := hrec.2 hodd
          refine ⟨f1, v, hv1, ?_⟩
          unfold TemplateFunc
          rw [htf, hv2]

theorem c8_keyed_entry_point_witness :
    (¬ ∃ p ∈ pairsOf [GoValue.str (("GroupSize").toList), GoValue.i64 1],
      badPair p.1 p.2 = true) ∧
    ([GoValue.str (("GroupSize").toList), GoValue.i64 1] : List GoValue).length % 2 = 0 ∧
    (∃ f, TemplateFunc [GoValue.str (("GroupSize").toList), GoValue.i64 1] =
      Except.ok (TFResult.fn f)) :=
  ⟨by decide, by decide,
    ((c8_keyed_entry_point [GoValue.str (("GroupSize").toList), GoValue.i64 1]).2
      (by decide)).1 (by decide)⟩

/-- C9: when the rendered fraction has fewer digits than MinDecimalPlaces,
the padding step extends it with zero characters on the right to exactly
MinDecimalPlaces digits before template execution; concretely
MinDecimalPlaces 2 on the integer 123 renders 123.00. -/
theorem c9_min_decimal_padding :
    (∀ (m : Int) (fp : List Char), (fp.length : Int) < m →
      padFrac m fp = fp ++ List.replicate (m.toNat - fp.length) '0' ∧
      ((padFrac m fp).length : Int) = m) ∧
    Formatter.format { MinDecimalPlaces := 2 } (GoValue.i64 123) =
      some (("123.00").toList) := by
  constructor
  · intro m fp h
    unfold padFrac
    rw [if_pos h]
    refine ⟨rfl, ?_⟩
    simp only [List.length_append, List.length_replicate]
    omega
  · decide

theorem c9_min_decimal_padding_witness :
    (((([] : List Char)).length : Int) < 2 ∧
      padFrac 2 [] = [] ++ List.replicate 2 '0' ∧
      ((padFrac 2 ([] : List Char)).length : Int) = 2) :=
  ⟨by decide, (c9_min_decimal_padding.1 2 [] (by decide)).1,
    (c9_min_decimal_padding.1 2 [] (by decide)).2⟩

/-- C10 counterexample: the claim says Format never panics for any
configuration, with all grouping slice indices in bounds even for negative
GroupSize; but with GroupSize -1 the grouping renderer computes a negative
slice bound (numIdx becomes the group size itself when the length is evenly
divisible) and panics, modelled as none. -/
theorem c10_counterexample :
    Formatter.format { GroupSize := -1 } (GoValue.str ['1']) = none := by
  decide

/-- C10 (amended): the canonical decimal string always has a non-empty
integer part, so the sign check is in bounds; and for every configuration
with a nonnegative GroupSize, Format is total — no slice index computed in
the grouping renderer leaves the digit string.  (For negative GroupSize the
renderer can panic.) -/
theorem c10_total_for_nonneg_group_size :
    (∀ d : Dec, (splitDot d.toStr).1 ≠ []) ∧
    (∀ (f : Formatter) (v : GoValue), 0 ≤ f.GroupSize → (f.format v).isSome) :=
  ⟨splitDot_toStr_fst_ne_nil, fun f v h => format_isSome f v h⟩

theorem c10_total_for_nonneg_group_size_witness :
    (0 : Int) ≤ ({} : Formatter).GroupSize ∧
    (Formatter.format {} (GoValue.str (("-12345.6789").toList))).isSome :=
  ⟨by decide, c10_total_for_nonneg_group_size.2 {} _ (by decide)⟩

end Numfmt




